import Mathlib

/-!
Shallow embedding of the Last.fm Picard plugin (`src/__init__.py`) for
checking the natural-language specification against the code.

The plugin keeps two module-level dictionaries, `_cache` (lookup key →
resolved tag list) and `_pending_xmlws_requests` (lookup key → list of
waiting continuations).  `Processor.get_tags` either answers from the
cache, registers a waiter, or issues an outbound request;
`Processor.tags_downloaded` is the HTTP-response callback that parses the
document, populates the cache, drains the waiters, and — in a `finally`
block — decrements `album._requests` and calls `album._finalize_loading`.

Python dictionaries are modelled as association lists with first-match
lookup and replace-or-append insertion; continuations are modelled by
numeric identifiers, with each operation returning the list of
(continuation, tag-list) invocations it performs.
-/

namespace Lastfm

abbrev Key := String
abbrev TagList := List String

/-- Dictionary lookup (`d[k]` / `k in d`) on an association list. -/
def dlookup {α : Type} (d : List (Key × α)) (k : Key) : Option α :=
  match d with
  | [] => none
  | (k', v) :: rest => if k' = k then some v else dlookup rest k

/-- Dictionary assignment `d[k] = v`: replace the binding if present, else append. -/
def dinsert {α : Type} (d : List (Key × α)) (k : Key) (v : α) : List (Key × α) :=
  match d with
  | [] => [(k, v)]
  | (k', v') :: rest =>
      if k' = k then (k', v) :: rest else (k', v') :: dinsert rest k v

/-- Dictionary deletion `del d[k]`. -/
def derase {α : Type} (d : List (Key × α)) (k : Key) : List (Key × α) :=
  match d with
  | [] => []
  | (k', v') :: rest => if k' = k then rest else (k', v') :: derase rest k

/-- Python `set.add`: insert a string unless it is already a member. -/
def sadd (s : List String) (x : String) : List String :=
  if x ∈ s then s else x :: s

/-- The cache key for an artist lookup: `'ar-' + artist` (`__init__`, line 61). -/
def artistKey (artist : String) : Key := "ar-" ++ artist

/-- The cache key for a track lookup: `'t-' + artist + '-' + title` (`__init__`, line 68). -/
def trackKey (artist title : String) : Key := "t-" ++ artist ++ "-" ++ title

/-- The cache key for an album lookup: `'al-' + album + '-' + albumartist` (`__init__`, line 75). -/
def albumKey (album albumartist : String) : Key := "al-" ++ album ++ "-" ++ albumartist

/--
The shared module-level state of the plugin together with the per-album
bookkeeping touched by the two operations: `_cache`,
`_pending_xmlws_requests` (waiters recorded by continuation id), the log of
outbound requests issued through `xmlws.get`, the `album._requests`
counter, and the number of `album._finalize_loading` calls made.
-/
structure ProcState where
  cache : List (Key × TagList)
  pending : List (Key × List Nat)
  issued : List Key
  albumRequests : Int
  finalizeLoadingCalls : Nat
deriving Repr, DecidableEq

/--
Result of one `get_tags` call: the new state, the tag list the caller's
`set_tags` continuation was synchronously invoked with (cache hit), and
whether this call issued the outbound request for the key.
-/
structure GetTagsResult where
  state : ProcState
  invoked : Option TagList
  issuedRequest : Bool
deriving Repr, DecidableEq

/--
Model of `Processor.get_tags(params, cachekey, set_tags)` (lines 111–126): on a
cache hit, call `set_tags` synchronously with the cached list; else if the
key is pending, append the continuation to the waiter list; else create an
empty waiter list, increment `album._requests`, and issue the request
(the issuing caller's continuation is captured in the response callback,
not stored in the waiter list).
-/
def get_tags (s : ProcState) (cachekey : Key) (waiter : Nat) : GetTagsResult :=
  match dlookup s.cache cachekey with
  | some tags => { state := s, invoked := some tags, issuedRequest := false }
  | none =>
    match dlookup s.pending cachekey with
    | some ws =>
        { state := { s with pending := dinsert s.pending cachekey (ws ++ [waiter]) },
          invoked := none, issuedRequest := false }
    | none =>
        { state := { s with
            pending := dinsert s.pending cachekey [],
            albumRequests := s.albumRequests + 1,
            issued := s.issued ++ [cachekey] },
          invoked := none, issuedRequest := true }

/--
One `<tag>` node of the `toptags` list: either well-formed, carrying the
text of its name and count children, or missing one of those children, in
which case navigating it (`tag.name[0]` / `tag.count[0]`) raises
`AttributeError` mid-loop — caught by the handler at line 159, which
aborts the loop with the tags collected so far.
-/
inductive TagNode where
  | node (name cnt : String)
  | broken
deriving Repr, DecidableEq

/--
The shapes of argument triple `(data, http, error)` the response callback
can receive, as distinguished by the code's own control flow:
* `transportError` — the request failed at transport level; `data` is not a
  parseable document, so `data.lfm` raises `AttributeError` at the first
  navigation step (the `error` argument itself is never inspected by the
  code);
* `malformed` — a parseable document that lacks an expected node
  (`lfm`/`toptags`), so navigation raises `AttributeError` before any tag
  is processed;
* `apiFailed code msg` — a document whose `lfm` node carries
  `status = 'failed'` with an error code and message;
* `ok artistTerm trackTerm entries` — a document that reaches the tag
  loop: the optional echoed canonical artist/track names on the `toptags`
  node, and the tag nodes in document order — a `.broken` entry raises
  `AttributeError` mid-loop, so the partial tag list collected before it
  is what the callback goes on to cache;
* `unexpected` — parsing raises an exception other than `AttributeError`,
  reaching the bare `except` clause that logs and re-raises.
-/
inductive Response where
  | transportError
  | malformed
  | apiFailed (code msg : String)
  | ok (artistTerm trackTerm : Option String) (entries : List TagNode)
  | unexpected
deriving Repr, DecidableEq

/-- Python `str.lower()`: lower-case every character. -/
def strLower (s : String) : String := String.mk (s.data.map Char.toLower)

/-- Python `str.strip()`: drop whitespace from both ends. -/
def strTrim (s : String) : String :=
  String.mk
    (((s.data.dropWhile Char.isWhitespace).reverse.dropWhile
        Char.isWhitespace).reverse)

/-- A non-empty all-digit character list read as a decimal number. -/
def decDigits (cs : List Char) : Option Nat :=
  if cs ≠ [] ∧ cs.all Char.isDigit then
    some (cs.foldl (fun n c => n * 10 + (c.toNat - 48)) 0)
  else none

/-- Python `int()` on a stripped string: an optional sign followed by digits. -/
def parseIntChars : List Char → Option Int
  | [] => none
  | '-' :: rest => (decDigits rest).map (fun n => -(n : Int))
  | '+' :: rest => (decDigits rest).map (fun n => (n : Int))
  | cs => (decDigits cs).map (fun n => (n : Int))

/-- Python `int(text.strip())` with `ValueError` handled as `count = 0` (lines 151–152). -/
def parseCount (s : String) : Int := (parseIntChars (strTrim s).data).getD 0

/--
Word-start tracking pass of the titlecase model: upper-case the first
character of every space-separated word.
-/
def titlecaseChars : Bool → List Char → List Char
  | _, [] => []
  | atStart, c :: rest =>
      if c = ' ' then c :: titlecaseChars true rest
      else (if atStart then c.toUpper else c) :: titlecaseChars false rest

/--
Model of the external `titlecase` library for the plain lowercased names
the code feeds it: capitalise the first letter of each space-separated word.
-/
def titlecase (s : String) : String := String.mk (titlecaseChars true s.data)

/--
The tag loop of `tags_downloaded` (lines 148–158): for each well-formed
node take `name = text.strip().lower()` and `count` via `parseCount`;
`break` at the first entry with `count < min_tag_usage`; append
`titlecase(name)` unless the name is in the ignore set.  A `.broken` node
raises `AttributeError`, caught at line 159: the loop aborts there and the
tags appended so far are kept.
-/
def walkTags (ignore : List String) (minUsage : Int) :
    List TagNode → TagList
  | [] => []
  | .broken :: _ => []
  | .node nm cnt :: rest =>
    let name := strLower (strTrim nm)
    let count := parseCount cnt
    if count < minUsage then []
    else if name ∈ ignore then walkTags ignore minUsage rest
    else titlecase name :: walkTags ignore minUsage rest

/--
Model of `try: ignore.add(toptags.artist.lower()) except AttributeError: pass`
(lines 143–146): add the lowered override term when the node is present.
Note the code aliases `ignore = self.ignore_tags`, so this mutates the
Processor's own ignore set.
-/
def applyOverride (ignore : List String) (term : Option String) : List String :=
  match term with
  | none => ignore
  | some a => sadd ignore (strLower a)

/--
Result of one `tags_downloaded` callback: the new state, the ordered list
of (continuation, tag list) invocations (the issuing caller's `set_tags`
first, then the drained waiters), the Processor's `self.ignore_tags` set
after the call (the code mutates it through the `ignore` alias), whether an
error was logged, and whether the callback re-raised an exception.
-/
structure DownloadResult where
  state : ProcState
  calls : List (Nat × TagList)
  ignoreAfter : List String
  loggedError : Bool
  raised : Bool
deriving Repr, DecidableEq

/--
Lines 162–170 of `tags_downloaded`: store `tags` in `_cache[cachekey]`,
call `set_tags(tags)`, then, if the key is pending, delete it and invoke
every delayed continuation with the same `tags` list.
-/
def resolveKey (s : ProcState) (cachekey : Key) (orig : Nat) (tags : TagList) :
    ProcState × List (Nat × TagList) :=
  let s1 := { s with cache := dinsert s.cache cachekey tags }
  let waiters := (dlookup s1.pending cachekey).getD []
  let s2 := { s1 with pending := derase s1.pending cachekey }
  (s2, (orig, tags) :: waiters.map (fun w => (w, tags)))

/-- The `finally` block (lines 175–177): `album._requests -= 1` and `album._finalize_loading(None)`. -/
def finallyBlock (st : ProcState) (calls : List (Nat × TagList))
    (ign : List String) (logged raised : Bool) : DownloadResult :=
  { state := { st with
      albumRequests := st.albumRequests - 1,
      finalizeLoadingCalls := st.finalizeLoadingCalls + 1 },
    calls := calls, ignoreAfter := ign, loggedError := logged, raised := raised }

/--
Model of `Processor.tags_downloaded(cachekey, set_tags, data, http, error)`
(lines 128–177).  The `error` argument is never inspected: a transport
error surfaces only as an unparseable `data`, whose first navigation
raises `AttributeError`, caught by `except AttributeError: pass`, leaving
`tags = []` — which is then cached and used to resolve all waiters, exactly
as for a document missing its `lfm`/`toptags` node.  An `AttributeError`
raised mid-loop by a malformed tag node (a `.broken` entry) is caught by
the same handler, and line 162 caches whatever partial list was appended
before it — `walkTags` stops at the `.broken` entry, so the `.ok` branch
covers both the complete and the aborted loop.  An explicit
`status = 'failed'` document logs and `return`s before the cache store and
before the pending-map deletion.  The `finally` block always runs.
-/
def tags_downloaded (minUsage : Int) (ignore : List String) (s : ProcState)
    (cachekey : Key) (orig : Nat) (r : Response) : DownloadResult :=
  match r with
  | .apiFailed _ _ => finallyBlock s [] ignore true false
  | .unexpected => finallyBlock s [] ignore true true
  | .transportError =>
      let (s', calls) := resolveKey s cachekey orig []
      finallyBlock s' calls ignore false false
  | .malformed =>
      let (s', calls) := resolveKey s cachekey orig []
      finallyBlock s' calls ignore false false
  | .ok artistTerm trackTerm entries =>
      let ign := applyOverride (applyOverride ignore artistTerm) trackTerm
      let tags := walkTags ign minUsage entries
      let (s', calls) := resolveKey s cachekey orig tags
      finallyBlock s' calls ign false false

/--
A sequence of `get_tags` calls for one cache key by distinct callers,
returning the final state and the number of outbound requests issued.
-/
def getTagsSeq (s : ProcState) (cachekey : Key) : List Nat → ProcState × Nat
  | [] => (s, 0)
  | w :: ws =>
      let r := get_tags s cachekey w
      let p := getTagsSeq r.state cachekey ws
      (p.1, (if r.issuedRequest then 1 else 0) + p.2)

/--
An observable event of the plugin: a `get_tags` call, or the arrival of an
HTTP response for a key (which runs `tags_downloaded`).
-/
inductive Event where
  | getReq (key : Key) (waiter : Nat)
  | httpDone (key : Key) (orig : Nat) (r : Response)
deriving Repr, DecidableEq

/--
The plugin state together with the multiset of keys whose outbound request
has been issued but whose response callback has not yet run.
-/
structure World where
  proc : ProcState
  inFlight : List Key
deriving Repr, DecidableEq

/--
One event step: a `get_tags` call adds the key to the in-flight keys
exactly when it issues the outbound request; a response callback runs
`tags_downloaded` and retires the in-flight entry for its key.
-/
def step (minUsage : Int) (ignore : List String) (w : World) : Event → World
  | .getReq key c =>
      let r := get_tags w.proc key c
      { proc := r.state,
        inFlight := if r.issuedRequest then key :: w.inFlight else w.inFlight }
  | .httpDone key orig resp =>
      { proc := (tags_downloaded minUsage ignore w.proc key orig resp).state,
        inFlight := w.inFlight.erase key }

/--
The de-duplication invariant: every key has at most one outbound request in
flight, and an in-flight key is always registered in the pending map.
-/
def Inv (w : World) : Prop :=
  ∀ k : Key, w.inFlight.count k ≤ 1 ∧
    (k ∈ w.inFlight → dlookup w.proc.pending k ≠ none)

/-- First-occurrence deduplication, generalised over the already-seen set. -/
def dedupFirstAux (seen : List String) : List String → List String
  | [] => []
  | x :: xs =>
      if x ∈ seen then dedupFirstAux seen xs
      else x :: dedupFirstAux (x :: seen) xs

/--
The dedup idiom of `tags_finalize` (lines 96–97):
`set = {}; tags = [set.setdefault(e,e) for e in tags if e not in set]`,
i.e. keep the first occurrence of each element.
-/
def dedupFirst (l : List String) : List String := dedupFirstAux [] l

/--
Line 94 followed by the dedup (lines 96–97): concatenate track tags, album
tags, then artist tags, and deduplicate keeping first occurrences.
-/
def mergeTags (trackTags albumTags artistTags : TagList) : TagList :=
  dedupFirst (trackTags ++ albumTags ++ artistTags)

/--
The joining loop of `tags_finalize` (lines 101–106): walk the tags with
their index, prefix the separator for every index above zero, and append
the candidate only when `len(combined) + len(candidate) < 255`.
-/
def joinTagsAux (sep : String) (combined : String) (idx : Nat) :
    List String → String
  | [] => combined
  | tag :: rest =>
      joinTagsAux sep
        (if combined.length + (if idx > 0 then sep ++ tag else tag).length < 255
         then combined ++ (if idx > 0 then sep ++ tag else tag)
         else combined)
        (idx + 1) rest

/-- Initialise `combined = ""` then run the joining loop (lines 101–106). -/
def joinTags (sep : String) (tags : List String) : String :=
  joinTagsAux sep "" 0 tags

/-- Concatenation of a list of strings, for stating what `joinTags` builds. -/
def strConcat : List String → String
  | [] => ""
  | s :: rest => s ++ strConcat rest

/--
The candidate pieces the joining loop considers, starting from index
`idx`: each tag at a positive index is prefixed by the separator.
-/
def withSep (sep : String) : Nat → List String → List String
  | _, [] => []
  | idx, t :: rest => (if idx > 0 then sep ++ t else t) :: withSep sep (idx + 1) rest

/-- The value written to `metadata["genre"]`: a joined string or a tag list. -/
inductive Genre where
  | asList (tags : TagList)
  | asString (s : String)
deriving Repr, DecidableEq

/--
Model of `Processor.tags_finalize` (lines 90–109): do nothing until all three slots
are filled; merge and dedup; if `join_tags` is non-empty (Python
truthiness) run the joining loop, else keep the list.
-/
def tags_finalize (joinSep : String)
    (trackTags albumTags artistTags : Option TagList) : Option Genre :=
  match trackTags, albumTags, artistTags with
  | some tr, some al, some ar =>
      let tags := mergeTags tr al ar
      if joinSep.isEmpty then some (.asList tags)
      else some (.asString (joinTags joinSep tags))
  | _, _, _ => none

/-! ### Association-list and set lemmas -/

theorem dlookup_dinsert_self {α : Type} (d : List (Key × α)) (k : Key) (v : α) :
    dlookup (dinsert d k v) k = some v := by
  induction d with
  | nil => simp [dinsert, dlookup]
  | cons p rest ih =>
      obtain ⟨k', v'⟩ := p
      by_cases h : k' = k <;> simp [dinsert, dlookup, h, ih]

theorem dlookup_dinsert_ne {α : Type} (d : List (Key × α)) (k k' : Key) (v : α)
    (h : k' ≠ k) : dlookup (dinsert d k v) k' = dlookup d k' := by
  have hne : ¬ (k = k') := fun he => h he.symm
  induction d with
  | nil => simp [dinsert, dlookup, hne]
  | cons p rest ih =>
      obtain ⟨k0, v0⟩ := p
      by_cases h0 : k0 = k
      · subst h0
        simp [dinsert, dlookup, hne]
      · by_cases h1 : k0 = k'
        · subst h1
          simp [dinsert, dlookup, h0]
        · simp [dinsert, dlookup, h0, h1, ih]

theorem dlookup_derase_ne {α : Type} (d : List (Key × α)) (k k' : Key)
    (h : k' ≠ k) : dlookup (derase d k) k' = dlookup d k' := by
  have hne : ¬ (k = k') := fun he => h he.symm
  induction d with
  | nil => simp [derase]
  | cons p rest ih =>
      obtain ⟨k0, v0⟩ := p
      by_cases h0 : k0 = k
      · subst h0
        simp [derase, dlookup, hne]
      · by_cases h1 : k0 = k'
        · subst h1
          simp [derase, dlookup, h0]
        · simp [derase, dlookup, h0, h1, ih]

theorem mem_sadd_self (s : List String) (x : String) : x ∈ sadd s x := by
  by_cases h : x ∈ s <;> simp [sadd, h]

theorem mem_sadd_of_mem (s : List String) (x y : String) (h : x ∈ s) :
    x ∈ sadd s y := by
  by_cases hy : y ∈ s <;> simp [sadd, hy, h]

/-! ### Deduplication lemmas -/

theorem mem_dedupFirstAux (x : String) :
    ∀ (l seen : List String), x ∈ dedupFirstAux seen l ↔ x ∈ l ∧ x ∉ seen := by
  intro l
  induction l with
  | nil => intro seen; simp [dedupFirstAux]
  | cons h t ih =>
      intro seen
      by_cases hm : h ∈ seen
      · by_cases hx : x = h
        · subst hx
          simp [dedupFirstAux, hm, ih, fun _ => hm]
        · simp [dedupFirstAux, hm, ih, hx]
      · by_cases hx : x = h
        · subst hx
          simp [dedupFirstAux, hm, ih]
        · simp [dedupFirstAux, hm, ih, hx]

theorem nodup_dedupFirstAux :
    ∀ (l seen : List String), (dedupFirstAux seen l).Nodup := by
  intro l
  induction l with
  | nil => intro seen; simp [dedupFirstAux]
  | cons h t ih =>
      intro seen
      by_cases hm : h ∈ seen
      · simpa [dedupFirstAux, hm] using ih seen
      · simp only [dedupFirstAux, hm, if_false, List.nodup_cons]
        refine ⟨?_, ih _⟩
        intro hmem
        rw [mem_dedupFirstAux] at hmem
        exact hmem.2 (List.mem_cons_self h seen)

theorem dedupFirstAux_sublist :
    ∀ (l seen : List String), (dedupFirstAux seen l).Sublist l := by
  intro l
  induction l with
  | nil => intro seen; simp [dedupFirstAux]
  | cons h t ih =>
      intro seen
      by_cases hm : h ∈ seen
      · simpa [dedupFirstAux, hm] using (ih seen).cons h
      · simpa [dedupFirstAux, hm] using (ih (h :: seen)).cons₂ h

/-! ### Joining-loop lemmas -/

theorem joinTagsAux_spec (sep : String) :
    ∀ (l : List String) (combined : String) (idx : Nat),
      combined.length < 255 →
      ∃ ch, ch.Sublist (withSep sep idx l) ∧
        joinTagsAux sep combined idx l = combined ++ strConcat ch ∧
        (joinTagsAux sep combined idx l).length < 255 := by
  intro l
  induction l with
  | nil =>
      intro c idx h
      exact ⟨[], by simp [withSep], by simp [joinTagsAux, strConcat], by
        simpa [joinTagsAux] using h⟩
  | cons t rest ih =>
      intro c idx h
      by_cases hlen : c.length + (if idx > 0 then sep ++ t else t).length < 255
      · obtain ⟨ch, hsub, heq, hlt⟩ :=
          ih (c ++ (if idx > 0 then sep ++ t else t)) (idx + 1)
            (by rwa [String.length_append])
        refine ⟨(if idx > 0 then sep ++ t else t) :: ch, ?_, ?_, ?_⟩
        · simpa [withSep] using hsub.cons₂ (if idx > 0 then sep ++ t else t)
        · simp only [joinTagsAux, hlen, if_true]
          rw [heq, strConcat, String.append_assoc]
        · simpa [joinTagsAux, hlen] using hlt
      · obtain ⟨ch, hsub, heq, hlt⟩ := ih c (idx + 1) h
        refine ⟨ch, ?_, ?_, ?_⟩
        · simpa [withSep] using hsub.cons _
        · simpa [joinTagsAux, hlen] using heq
        · simpa [joinTagsAux, hlen] using hlt

/-! ### Tag-walk lemmas -/

theorem walkTags_stop (ign : List String) (mi : Int)
    (pre : List (String × String)) (post : List TagNode) (nm cnt : String)
    (hpre : ∀ e ∈ pre, ¬ parseCount e.2 < mi) (hstop : parseCount cnt < mi) :
    walkTags ign mi
        (pre.map (fun e => TagNode.node e.1 e.2) ++ TagNode.node nm cnt :: post) =
      walkTags ign mi (pre.map (fun e => TagNode.node e.1 e.2)) := by
  induction pre with
  | nil => simp [walkTags, hstop]
  | cons e pre ih =>
      obtain ⟨n0, c0⟩ := e
      have h0 : ¬ parseCount c0 < mi := hpre (n0, c0) (List.mem_cons_self _ _)
      have ih' := ih (fun e he => hpre e (List.mem_cons_of_mem _ he))
      simp [walkTags, h0, ih']

theorem walkTags_skip_ignored (ign : List String) (mi : Int)
    (nm cnt : String) (rest : List TagNode)
    (hcnt : ¬ parseCount cnt < mi) (hmem : strLower (strTrim nm) ∈ ign) :
    walkTags ign mi (TagNode.node nm cnt :: rest) = walkTags ign mi rest := by
  simp [walkTags, hcnt, hmem]

theorem walkTags_broken (ign : List String) (mi : Int) :
    ∀ (pre post : List TagNode),
      walkTags ign mi (pre ++ TagNode.broken :: post) = walkTags ign mi pre := by
  intro pre post
  induction pre with
  | nil => simp [walkTags]
  | cons e pre ih =>
      cases e with
      | broken => simp [walkTags]
      | node nm cnt => simp [walkTags, ih]

/-! ### get_tags step lemmas -/

theorem get_tags_cacheHit (s : ProcState) (key : Key) (w : Nat) (tags : TagList)
    (hc : dlookup s.cache key = some tags) :
    get_tags s key w = { state := s, invoked := some tags, issuedRequest := false } := by
  simp [get_tags, hc]

theorem get_tags_waiter (s : ProcState) (key : Key) (w : Nat) (ws : List Nat)
    (hc : dlookup s.cache key = none) (hp : dlookup s.pending key = some ws) :
    get_tags s key w =
      { state := { s with pending := dinsert s.pending key (ws ++ [w]) },
        invoked := none, issuedRequest := false } := by
  simp [get_tags, hc, hp]

theorem get_tags_issue (s : ProcState) (key : Key) (w : Nat)
    (hc : dlookup s.cache key = none) (hp : dlookup s.pending key = none) :
    get_tags s key w =
      { state := { s with
          pending := dinsert s.pending key [],
          albumRequests := s.albumRequests + 1,
          issued := s.issued ++ [key] },
        invoked := none, issuedRequest := true } := by
  simp [get_tags, hc, hp]

theorem getTagsSeq_waiters (key : Key) :
    ∀ (ws : List Nat) (s : ProcState) (ps : List Nat),
      dlookup s.cache key = none → dlookup s.pending key = some ps →
      (getTagsSeq s key ws).2 = 0 ∧
      dlookup (getTagsSeq s key ws).1.cache key = none ∧
      dlookup (getTagsSeq s key ws).1.pending key = some (ps ++ ws) := by
  intro ws
  induction ws with
  | nil => intro s ps hc hp; simpa [getTagsSeq] using ⟨hc, hp⟩
  | cons w ws ih =>
      intro s ps hc hp
      have hstep := get_tags_waiter s key w ps hc hp
      have hrec := ih { s with pending := dinsert s.pending key (ps ++ [w]) }
        (ps ++ [w]) hc (dlookup_dinsert_self _ _ _)
      simp only [getTagsSeq, hstep]
      simpa using hrec

/-! ### The in-flight invariant -/

theorem tags_downloaded_pending (mi : Int) (ign : List String) (s : ProcState)
    (key : Key) (orig : Nat) (r : Response) :
    (tags_downloaded mi ign s key orig r).state.pending = s.pending ∨
    (tags_downloaded mi ign s key orig r).state.pending = derase s.pending key := by
  cases r <;> simp [tags_downloaded, resolveKey, finallyBlock]

theorem inv_step (mi : Int) (ign : List String) (w : World) (e : Event)
    (h : Inv w) : Inv (step mi ign w e) := by
  cases e with
  | getReq key c =>
      cases hc : dlookup w.proc.cache key with
      | some tags =>
          have hstep : step mi ign w (.getReq key c) = w := by
            simp [step, get_tags_cacheHit w.proc key c tags hc]
          rw [hstep]; exact h
      | none =>
          cases hp : dlookup w.proc.pending key with
          | some ws =>
              have hs := get_tags_waiter w.proc key c ws hc hp
              have hstep : step mi ign w (.getReq key c) =
                  { proc := { w.proc with
                      pending := dinsert w.proc.pending key (ws ++ [c]) },
                    inFlight := w.inFlight } := by
                simp [step, hs]
              rw [hstep]
              intro k
              refine ⟨(h k).1, ?_⟩
              intro hk
              by_cases hkk : k = key
              · subst hkk; rw [dlookup_dinsert_self]; simp
              · rw [dlookup_dinsert_ne _ _ _ _ hkk]
                exact (h k).2 hk
          | none =>
              have hs := get_tags_issue w.proc key c hc hp
              have hstep : step mi ign w (.getReq key c) =
                  { proc := { w.proc with
                      pending := dinsert w.proc.pending key [],
                      albumRequests := w.proc.albumRequests + 1,
                      issued := w.proc.issued ++ [key] },
                    inFlight := key :: w.inFlight } := by
                simp [step, hs]
              rw [hstep]
              intro k
              have hkeyNotIn : key ∉ w.inFlight := fun hmem => (h key).2 hmem hp
              constructor
              · by_cases hkk : k = key
                · subst hkk
                  have h0 : w.inFlight.count k = 0 := List.count_eq_zero.mpr hkeyNotIn
                  simp [List.count_cons_self, h0]
                · rw [List.count_cons_of_ne hkk]
                  exact (h k).1
              · intro hk
                by_cases hkk : k = key
                · subst hkk; rw [dlookup_dinsert_self]; simp
                · rw [dlookup_dinsert_ne _ _ _ _ hkk]
                  rcases List.mem_cons.mp hk with he | hm
                  · exact absurd he hkk
                  · exact (h k).2 hm
  | httpDone key orig r =>
      intro k
      simp only [step]
      have hsub : (w.inFlight.erase key).Sublist w.inFlight := List.erase_sublist _ _
      constructor
      · exact le_trans (hsub.count_le k) (h k).1
      · intro hk
        have hkmem : k ∈ w.inFlight := List.mem_of_mem_erase hk
        rcases tags_downloaded_pending mi ign w.proc key orig r with hpend | hpend
        · rw [hpend]; exact (h k).2 hkmem
        · rw [hpend]
          by_cases hkk : k = key
          · subst hkk
            exfalso
            have h1 : 0 < (w.inFlight.erase k).count k := List.count_pos_iff.mpr hk
            rw [List.count_erase_self] at h1
            have h2 := (h k).1
            omega
          · rw [dlookup_derase_ne _ _ _ hkk]
            exact (h k).2 hkmem

/-! ### Claim theorems -/

/--
Claim C5: for every issued outbound request, whichever path the response
handler takes (successful parse, semantic failure, parse anomaly,
transport error, or an unexpected exception during parsing), the owning
album's in-flight request counter is decremented exactly once and the
host's completion-check hook is invoked exactly once — the `finally` block
of `tags_downloaded` runs on every path.
-/
theorem claim_c5 (mi : Int) (ign : List String) (s : ProcState) (key : Key)
    (orig : Nat) (r : Response) :
    (tags_downloaded mi ign s key orig r).state.albumRequests =
      s.albumRequests - 1 ∧
    (tags_downloaded mi ign s key orig r).state.finalizeLoadingCalls =
      s.finalizeLoadingCalls + 1 := by
  cases r <;> simp [tags_downloaded, resolveKey, finallyBlock]

/--
Claim C6: tags are walked in the given order, each count parsed as an
integer with unparseable counts treated as zero, and processing stops
entirely at the first tag whose count is below the threshold — no tag at
or after that position is ever included, regardless of its name or count.
On the spec's example `[(rock,50),(indie,40),(obscure,9)]` with threshold
10 the output is `["Rock","Indie"]`.
-/
theorem claim_c6 (ign : List String) (mi : Int)
    (pre : List (String × String)) (post : List TagNode) (nm cnt : String)
    (hpre : ∀ e ∈ pre, ¬ parseCount e.2 < mi)
    (hstop : parseCount cnt < mi) :
    walkTags ign mi
        (pre.map (fun e => TagNode.node e.1 e.2) ++ TagNode.node nm cnt :: post) =
      walkTags ign mi (pre.map (fun e => TagNode.node e.1 e.2)) ∧
    parseCount "not-a-number" = 0 ∧
    walkTags [] 10 [.node "rock" "50", .node "indie" "40", .node "obscure" "9"] =
      ["Rock", "Indie"] :=
  ⟨walkTags_stop ign mi pre post nm cnt hpre hstop, by decide, by decide⟩

/-- Witness for claim C6 at the spec's own example. -/
theorem claim_c6_witness :
    walkTags [] 10
        ([("rock", "50"), ("indie", "40")].map (fun e => TagNode.node e.1 e.2) ++
          TagNode.node "obscure" "9" :: []) =
      walkTags [] 10
        ([("rock", "50"), ("indie", "40")].map (fun e => TagNode.node e.1 e.2)) ∧
    parseCount "not-a-number" = 0 ∧
    walkTags [] 10 [.node "rock" "50", .node "indie" "40", .node "obscure" "9"] =
      ["Rock", "Indie"] :=
  claim_c6 [] 10 [("rock", "50"), ("indie", "40")] [] "obscure" "9"
    (by decide) (by decide)

/--
Claim C7: finalize merges the three tag lists in the order track, album,
artist, and deduplicates preserving first-seen order: the result is
duplicate-free, an order-preserving sublist of the concatenation, with
exactly the concatenation's members; the spec's example merges to
`["Rock","Pop","Jazz"]`.
-/
theorem claim_c7 (tr al ar : TagList) :
    (mergeTags tr al ar).Nodup ∧
    (mergeTags tr al ar).Sublist (tr ++ al ++ ar) ∧
    (∀ a, a ∈ mergeTags tr al ar ↔ a ∈ tr ++ al ++ ar) ∧
    mergeTags ["Rock", "Pop"] ["Pop", "Jazz"] ["Jazz", "Rock"] =
      ["Rock", "Pop", "Jazz"] := by
  refine ⟨nodup_dedupFirstAux (tr ++ al ++ ar) [],
    dedupFirstAux_sublist (tr ++ al ++ ar) [], ?_, by decide⟩
  intro a
  rw [mergeTags, dedupFirst, mem_dedupFirstAux]
  simp

/--
Claim C8 counterexample: an `AttributeError` raised mid-loop — a tag node
missing its name/count child after valid tags were already appended — is
caught by the same handler at line 159, and line 162 then caches the
partial NON-empty list `["Rock"]`, which every later `get_tags` call
returns; this contradicts the claim that on such an anomaly "the TagList
defaults to empty" and the empty list is what gets cached.
-/
theorem claim_c8_counterexample :
    dlookup (tags_downloaded 10 []
        { cache := [], pending := [], issued := [],
          albumRequests := 1, finalizeLoadingCalls := 0 } "t-a-b" 1
        (.ok none none [.node "rock" "50", .broken])).state.cache "t-a-b" =
      some ["Rock"] ∧
    some ["Rock"] ≠ some ([] : TagList) := by
  decide

/--
Claim C8 amended: a missing-expected-field anomaly (`AttributeError`
while navigating the document) is caught locally, and the tags collected
before the anomaly — the empty list when the anomaly occurs while
navigating to `lfm`/`toptags`, the partial list when a malformed tag node
aborts the loop (nothing at or after that node is included) — ARE stored
in the cache for the key; all continuations are resolved with that same
list, and every subsequent `get_tags` call for that key is a synchronous
cache hit returning it without issuing a request.
-/
theorem claim_c8_amended (mi : Int) (ign : List String) (s : ProcState)
    (key : Key) (orig : Nat) (artT trkT : Option String)
    (pre post : List TagNode) :
    (dlookup (tags_downloaded mi ign s key orig .malformed).state.cache key =
        some [] ∧
      (tags_downloaded mi ign s key orig .malformed).calls =
        (orig, ([] : TagList)) ::
          ((dlookup s.pending key).getD []).map (fun w => (w, [])) ∧
      ∀ w : Nat,
        get_tags (tags_downloaded mi ign s key orig .malformed).state key w =
          { state := (tags_downloaded mi ign s key orig .malformed).state,
            invoked := some [], issuedRequest := false }) ∧
    walkTags (applyOverride (applyOverride ign artT) trkT) mi
        (pre ++ TagNode.broken :: post) =
      walkTags (applyOverride (applyOverride ign artT) trkT) mi pre ∧
    (dlookup (tags_downloaded mi ign s key orig
          (.ok artT trkT (pre ++ TagNode.broken :: post))).state.cache key =
        some (walkTags (applyOverride (applyOverride ign artT) trkT) mi pre) ∧
      (tags_downloaded mi ign s key orig
          (.ok artT trkT (pre ++ TagNode.broken :: post))).calls =
        (orig, walkTags (applyOverride (applyOverride ign artT) trkT) mi pre) ::
          ((dlookup s.pending key).getD []).map
            (fun w => (w, walkTags (applyOverride (applyOverride ign artT) trkT) mi pre)) ∧
      ∀ w : Nat,
        get_tags (tags_downloaded mi ign s key orig
            (.ok artT trkT (pre ++ TagNode.broken :: post))).state key w =
          { state := (tags_downloaded mi ign s key orig
              (.ok artT trkT (pre ++ TagNode.broken :: post))).state,
            invoked := some (walkTags (applyOverride (applyOverride ign artT) trkT)
              mi pre),
            issuedRequest := false }) := by
  have hbroken := walkTags_broken (applyOverride (applyOverride ign artT) trkT)
    mi pre post
  have hcacheM :
      dlookup (tags_downloaded mi ign s key orig .malformed).state.cache key =
        some ([] : TagList) := by
    simp [tags_downloaded, resolveKey, finallyBlock, dlookup_dinsert_self]
  have hcacheO :
      dlookup (tags_downloaded mi ign s key orig
          (.ok artT trkT (pre ++ TagNode.broken :: post))).state.cache key =
        some (walkTags (applyOverride (applyOverride ign artT) trkT) mi pre) := by
    simp [tags_downloaded, resolveKey, finallyBlock, dlookup_dinsert_self, hbroken]
  refine ⟨⟨hcacheM, ?_, fun w => get_tags_cacheHit _ _ _ _ hcacheM⟩, hbroken,
    hcacheO, ?_, fun w => get_tags_cacheHit _ _ _ _ hcacheO⟩
  · simp [tags_downloaded, resolveKey, finallyBlock]
  · simp [tags_downloaded, resolveKey, finallyBlock, hbroken]

/--
Claim C10: lookup keys are built by plain string concatenation with a `-`
separator, so key construction is not injective: the distinct pairs
`("a-b","c")` and `("a","b-c")` yield the same track key, and `get_tags`
behaves identically for the two tracks in every state — they share one
cache and pending entry.
-/
theorem claim_c10 :
    trackKey "a-b" "c" = trackKey "a" "b-c" ∧
    (("a-b", "c") : String × String) ≠ ("a", "b-c") ∧
    ∀ (s : ProcState) (w : Nat),
      get_tags s (trackKey "a-b" "c") w = get_tags s (trackKey "a" "b-c") w := by
  have hk : trackKey "a-b" "c" = trackKey "a" "b-c" := by decide
  exact ⟨hk, by decide, fun s w => by rw [hk]⟩

/--
Claim C1 counterexample: on a transport-level error the callback never
reads its `error` argument; navigating the unparseable `data` raises
`AttributeError`, which is caught, so the empty tag list IS stored in the
cache and the waiter IS resolved with a value — contradicting the claim
that nothing is cached and no waiter is resolved.
-/
theorem claim_c1_counterexample :
    dlookup (tags_downloaded 15 []
        { cache := [], pending := [("ar-x", [5])], issued := ["ar-x"],
          albumRequests := 1, finalizeLoadingCalls := 0 }
        "ar-x" 3 .transportError).state.cache "ar-x" = some [] ∧
    (tags_downloaded 15 []
        { cache := [], pending := [("ar-x", [5])], issued := ["ar-x"],
          albumRequests := 1, finalizeLoadingCalls := 0 }
        "ar-x" 3 .transportError).calls ≠ [] := by
  decide

/--
Claim C1 amended: on a transport-level error the empty tag list is stored
in the cache for the key and the issuing continuation and every waiter are
resolved with it (the same path as a parse anomaly), so a later `get_tags`
call for the key is a synchronous cache hit and issues no new request.
-/
theorem claim_c1_amended (mi : Int) (ign : List String) (s : ProcState)
    (key : Key) (orig : Nat) :
    dlookup (tags_downloaded mi ign s key orig .transportError).state.cache
        key = some [] ∧
    (tags_downloaded mi ign s key orig .transportError).calls =
      (orig, ([] : TagList)) ::
        ((dlookup s.pending key).getD []).map (fun w => (w, [])) ∧
    ∀ w : Nat,
      get_tags (tags_downloaded mi ign s key orig .transportError).state key w =
        { state := (tags_downloaded mi ign s key orig .transportError).state,
          invoked := some [], issuedRequest := false } := by
  have hcache :
      dlookup (tags_downloaded mi ign s key orig .transportError).state.cache
        key = some ([] : TagList) := by
    simp [tags_downloaded, resolveKey, finallyBlock, dlookup_dinsert_self]
  refine ⟨hcache, ?_, fun w => get_tags_cacheHit _ _ _ _ hcache⟩
  simp [tags_downloaded, resolveKey, finallyBlock]

/--
Claim C2 counterexample: after an explicit API failure response the
`return` happens before the pending-map deletion, so the key IS still
present in the pending map, and a subsequent `get_tags` call registers as
a waiter instead of issuing a new outbound request — contradicting the
claim.
-/
theorem claim_c2_counterexample :
    dlookup (tags_downloaded 15 []
        { cache := [], pending := [("ar-x", [7])], issued := ["ar-x"],
          albumRequests := 1, finalizeLoadingCalls := 0 }
        "ar-x" 3 (.apiFailed "6" "err")).state.pending "ar-x" = some [7] ∧
    (get_tags (tags_downloaded 15 []
        { cache := [], pending := [("ar-x", [7])], issued := ["ar-x"],
          albumRequests := 1, finalizeLoadingCalls := 0 }
        "ar-x" 3 (.apiFailed "6" "err")).state "ar-x" 9).issuedRequest =
      false := by
  decide

/--
Claim C2 amended: after a semantic-failure response no value is cached for
the key, but the key REMAINS in the pending map with its waiter list
untouched and no continuation is invoked, so a subsequent `get_tags` call
for the key appends itself as a waiter and does not issue a new outbound
request — the key is starved, not eligible for a fresh attempt.
-/
theorem claim_c2_amended (mi : Int) (ign : List String) (s : ProcState)
    (key : Key) (orig : Nat) (code msg : String) (ws : List Nat)
    (hp : dlookup s.pending key = some ws)
    (hc : dlookup s.cache key = none) :
    (tags_downloaded mi ign s key orig (.apiFailed code msg)).state.cache =
      s.cache ∧
    dlookup (tags_downloaded mi ign s key orig
        (.apiFailed code msg)).state.pending key = some ws ∧
    (tags_downloaded mi ign s key orig (.apiFailed code msg)).calls = [] ∧
    ∀ w : Nat,
      get_tags (tags_downloaded mi ign s key orig
          (.apiFailed code msg)).state key w =
        { state := { (tags_downloaded mi ign s key orig
              (.apiFailed code msg)).state with
            pending := dinsert (tags_downloaded mi ign s key orig
              (.apiFailed code msg)).state.pending key (ws ++ [w]) },
          invoked := none, issuedRequest := false } := by
  have hstate : (tags_downloaded mi ign s key orig (.apiFailed code msg)).state =
      { s with albumRequests := s.albumRequests - 1,
               finalizeLoadingCalls := s.finalizeLoadingCalls + 1 } := by
    simp [tags_downloaded, finallyBlock]
  refine ⟨by rw [hstate], by rw [hstate]; exact hp, by
    simp [tags_downloaded, finallyBlock], ?_⟩
  intro w
  exact get_tags_waiter _ key w ws (by rw [hstate]; exact hc)
    (by rw [hstate]; exact hp)

/-- Witness for claim C2 amended: the key is still pending after an API failure. -/
theorem claim_c2_amended_witness :
    dlookup (tags_downloaded 15 []
        { cache := [], pending := [("ar-x", [7])], issued := ["ar-x"],
          albumRequests := 1, finalizeLoadingCalls := 0 }
        "ar-x" 3 (.apiFailed "6" "err")).state.pending "ar-x" = some [7] :=
  (claim_c2_amended 15 []
    { cache := [], pending := [("ar-x", [7])], issued := ["ar-x"],
      albumRequests := 1, finalizeLoadingCalls := 0 }
    "ar-x" 3 "6" "err" [7] (by decide) (by decide)).2.1

/--
Claim C3: for N ≥ 1 `get_tags` calls for one uncached, unpending key made
before the response arrives, exactly one outbound request is issued, and
on successful resolution all N continuations receive the identical tag
list; moreover every event step preserves the invariant that at most one
request per key is in flight at a time.
-/
theorem claim_c3 (s : ProcState) (key : Key) (w0 : Nat) (ws : List Nat)
    (mi : Int) (ign : List String) (artT trkT : Option String)
    (entries : List TagNode)
    (hc : dlookup s.cache key = none) (hp : dlookup s.pending key = none) :
    (getTagsSeq s key (w0 :: ws)).2 = 1 ∧
    (∃ t : TagList,
      (tags_downloaded mi ign (getTagsSeq s key (w0 :: ws)).1 key w0
          (.ok artT trkT entries)).calls =
        (w0 :: ws).map (fun i => (i, t))) ∧
    (∀ p : ProcState, Inv { proc := p, inFlight := [] }) ∧
    ∀ (world : World) (e : Event), Inv world → Inv (step mi ign world e) := by
  have hs := get_tags_issue s key w0 hc hp
  have h1c : dlookup ({ s with
      pending := dinsert s.pending key [],
      albumRequests := s.albumRequests + 1,
      issued := s.issued ++ [key] } : ProcState).cache key = none := hc
  have h1p : dlookup ({ s with
      pending := dinsert s.pending key [],
      albumRequests := s.albumRequests + 1,
      issued := s.issued ++ [key] } : ProcState).pending key = some [] :=
    dlookup_dinsert_self _ _ _
  have hseq := getTagsSeq_waiters key ws _ [] h1c h1p
  have hunfold : getTagsSeq s key (w0 :: ws) =
      ((getTagsSeq { s with
          pending := dinsert s.pending key [],
          albumRequests := s.albumRequests + 1,
          issued := s.issued ++ [key] } key ws).1,
        1 + (getTagsSeq { s with
          pending := dinsert s.pending key [],
          albumRequests := s.albumRequests + 1,
          issued := s.issued ++ [key] } key ws).2) := by
    simp [getTagsSeq, hs]
  refine ⟨?_, ?_, fun p k => by simp [Inv, dlookup],
    fun world e hInv => inv_step mi ign world e hInv⟩
  · rw [hunfold]; simp [hseq.1]
  · rw [hunfold]
    refine ⟨walkTags (applyOverride (applyOverride ign artT) trkT) mi entries, ?_⟩
    have hpend := hseq.2.2
    simp only [List.nil_append] at hpend
    simp [tags_downloaded, resolveKey, finallyBlock, hpend]

/-- Witness for claim C3 on a three-caller scenario from the empty state. -/
theorem claim_c3_witness :
    (getTagsSeq
        { cache := [], pending := [], issued := [],
          albumRequests := 0, finalizeLoadingCalls := 0 } "ar-x" [0, 1, 2]).2 = 1 ∧
    ∃ t : TagList,
      (tags_downloaded 15 []
          (getTagsSeq
            { cache := [], pending := [], issued := [],
              albumRequests := 0, finalizeLoadingCalls := 0 } "ar-x" [0, 1, 2]).1
          "ar-x" 0 (.ok none none [.node "rock" "50"])).calls =
        [0, 1, 2].map (fun i => (i, t)) := by
  have h := claim_c3
    { cache := [], pending := [], issued := [],
      albumRequests := 0, finalizeLoadingCalls := 0 }
    "ar-x" 0 [1, 2] 15 [] none none [.node "rock" "50"] (by decide) (by decide)
  exact ⟨h.1, h.2.1⟩

set_option maxRecDepth 8000 in
/--
Claim C4 counterexample: the 255-character check is applied per candidate
tag, not as a stop: with separator `", "`, a 200-character first tag, a
60-character second tag and then `"c"`, the second candidate is rejected
yet `"c"` is still appended afterwards — the result is the first tag
followed by `", c"`, not the first tag alone.
-/
theorem claim_c4_counterexample :
    joinTags ", " [String.mk (List.replicate 200 'a'),
        String.mk (List.replicate 60 'b'), "c"] =
      String.mk (List.replicate 200 'a') ++ ", c" ∧
    joinTags ", " [String.mk (List.replicate 200 'a'),
        String.mk (List.replicate 60 'b'), "c"] ≠
      String.mk (List.replicate 200 'a') := by
  decide

/--
Claim C4 amended: the length check is performed against each candidate
before appending it, but a rejected candidate is skipped, not a stop:
later, shorter tags may still be appended.  For every separator and tag
list the final string has length strictly less than 255 and is a
concatenation of whole candidate pieces (each tag at a positive index
prefixed by the separator) in order — no tag is truncated mid-string.
-/
theorem claim_c4_amended (sep : String) (tags : List String) :
    (joinTags sep tags).length < 255 ∧
    ∃ ch, ch.Sublist (withSep sep 0 tags) ∧ joinTags sep tags = strConcat ch := by
  obtain ⟨ch, hsub, heq, hlt⟩ := joinTagsAux_spec sep tags "" 0 (by decide)
  refine ⟨hlt, ch, hsub, ?_⟩
  rw [joinTags, heq]
  exact String.empty_append _

set_option maxRecDepth 4000 in
/--
Claim C9 counterexample: `ignore = self.ignore_tags` aliases the
Processor's set, so the override term from one response's parse persists:
parsing a second response with the Processor's post-parse ignore set
excludes the tag `indie` and caches the empty list, while the same
response parsed against the original base ignore set caches `["Indie"]` —
the exclusion set applied to another parse WAS altered.
-/
theorem claim_c9_counterexample :
    (tags_downloaded 10 []
        { cache := [], pending := [], issued := [],
          albumRequests := 1, finalizeLoadingCalls := 0 } "ar-a" 0
        (.ok (some "Indie") none [])).ignoreAfter ≠ ([] : List String) ∧
    dlookup (tags_downloaded 10
        (tags_downloaded 10 []
          { cache := [], pending := [], issued := [],
            albumRequests := 1, finalizeLoadingCalls := 0 } "ar-a" 0
          (.ok (some "Indie") none [])).ignoreAfter
        { cache := [], pending := [], issued := [],
          albumRequests := 1, finalizeLoadingCalls := 0 } "t-a-b" 1
        (.ok none none [.node "indie" "50"])).state.cache "t-a-b" = some [] ∧
    dlookup (tags_downloaded 10 []
        { cache := [], pending := [], issued := [],
          albumRequests := 1, finalizeLoadingCalls := 0 } "t-a-b" 1
        (.ok none none [.node "indie" "50"])).state.cache "t-a-b" =
      some ["Indie"] := by
  decide

/--
Claim C9 amended: the per-source override terms are added, case-folded, to
the Processor's own ignore set through the `ignore = self.ignore_tags`
alias, so they persist beyond the parse: the term is still in
`self.ignore_tags` after the callback, and a subsequent parse by the same
Processor skips any tag whose folded name equals the override term.
(Other Processor instances build their ignore set afresh from the static
file and are unaffected.)
-/
theorem claim_c9_amended (base : List String) (s : ProcState) (key : Key)
    (orig : Nat) (mi : Int) (a : String) (trk : Option String)
    (entries : List TagNode) :
    strLower a ∈
      (tags_downloaded mi base s key orig (.ok (some a) trk entries)).ignoreAfter ∧
    ∀ (nm cnt : String) (rest : List TagNode),
      strLower (strTrim nm) = strLower a → ¬ parseCount cnt < mi →
      walkTags (tags_downloaded mi base s key orig
          (.ok (some a) trk entries)).ignoreAfter mi (TagNode.node nm cnt :: rest) =
        walkTags (tags_downloaded mi base s key orig
          (.ok (some a) trk entries)).ignoreAfter mi rest := by
  have hafter : (tags_downloaded mi base s key orig
      (.ok (some a) trk entries)).ignoreAfter =
      applyOverride (sadd base (strLower a)) trk := by
    simp [tags_downloaded, resolveKey, finallyBlock, applyOverride]
  have hmem : strLower a ∈ applyOverride (sadd base (strLower a)) trk := by
    cases trk with
    | none => exact mem_sadd_self base (strLower a)
    | some t => exact mem_sadd_of_mem _ _ _ (mem_sadd_self base (strLower a))
  refine ⟨hafter ▸ hmem, ?_⟩
  intro nm cnt rest hnm hcnt
  apply walkTags_skip_ignored
  · exact hcnt
  · rw [hnm, hafter]; exact hmem

/-- Witness for claim C9 amended at a concrete override term and tag. -/
theorem claim_c9_amended_witness :
    strLower "Indie" ∈
      (tags_downloaded 10 []
        { cache := [], pending := [], issued := [],
          albumRequests := 1, finalizeLoadingCalls := 0 } "ar-a" 0
        (.ok (some "Indie") none [])).ignoreAfter ∧
    walkTags (tags_downloaded 10 []
        { cache := [], pending := [], issued := [],
          albumRequests := 1, finalizeLoadingCalls := 0 } "ar-a" 0
        (.ok (some "Indie") none [])).ignoreAfter 10 [.node "indie" "50"] =
      walkTags (tags_downloaded 10 []
        { cache := [], pending := [], issued := [],
          albumRequests := 1, finalizeLoadingCalls := 0 } "ar-a" 0
        (.ok (some "Indie") none [])).ignoreAfter 10 [] := by
  have h := claim_c9_amended []
    { cache := [], pending := [], issued := [],
      albumRequests := 1, finalizeLoadingCalls := 0 }
    "ar-a" 0 10 "Indie" none []
  exact ⟨h.1, h.2 "indie" "50" [] (by decide) (by decide)⟩

end Lastfm
